import Mathlib

/-
  Verification of the polars columnar-builder core
  (polars-core/src/chunked_array/builder/mod.rs and polars-core/src/functions.rs).

  The underlying columnar memory layout library (growable buffers, validity
  bitmaps, the Primitive / Utf8Primitive / BooleanPrimitive / ListPrimitive
  mutable array builders) is an external collaborator of the crate; the spec
  (sections 3 and 6) fixes the interface this core needs from it.  Those
  primitives are therefore modelled from the spec; every function of the
  crate itself is translated directly from the source.
-/

namespace Polars

/-- Modelled from the spec: the logical type descriptor.  The closed set is
{Boolean, Numeric, Utf8, List, Categorical}; the many concrete numeric widths
of the source are collapsed into the single representative Numeric, whose
native values are modelled as Int. -/
inductive DataType where
  | Boolean : DataType
  | Numeric : DataType
  | Utf8 : DataType
  | list : DataType → DataType
  | Categorical : DataType
deriving DecidableEq, Repr

/-- Field: the column identity (name, logical type), as in the source. -/
structure Field where
  name : String
  dtype : DataType
deriving DecidableEq, Repr

/-- Modelled from the spec: the runtime type descriptor T::get_dtype() of a
native value type. -/
class PolarsDType (α : Type) where
  get_dtype : DataType

instance : PolarsDType Int := ⟨DataType.Numeric⟩

instance : PolarsDType Bool := ⟨DataType.Boolean⟩

instance : PolarsDType String := ⟨DataType.Utf8⟩

/-- The dtype attached to a native value type, mirroring T::get_dtype(). -/
def dtypeOf (α : Type) [i : PolarsDType α] : DataType := @PolarsDType.get_dtype α i

/-- Modelled from the spec: a mutable scalar arrow builder
(Primitive, BooleanPrimitive, Utf8Primitive).  One logical slot per entry;
a none entry is a slot whose validity bit is 0.  Capacity hints are advisory
pre-allocation and carry no semantics, so they are not recorded here. -/
abbrev Prim (α : Type) := List (Option α)

/-- Modelled from the spec: push one optional value (one slot). -/
def Prim.push (b : Prim α) (v : Option α) : Prim α := b ++ [v]

/-- Modelled from the spec: append a valid value slot. -/
def Prim.append_value (b : Prim α) (v : α) : Prim α := Prim.push b (some v)

/-- Modelled from the spec: append a null slot. -/
def Prim.append_null (b : Prim α) : Prim α := Prim.push b none

/-- Modelled from the spec: bulk-append a raw value slice; every appended
slot is valid (the source guards this call by a zero null count). -/
def Prim.append_slice (b : Prim α) (vs : List α) : Prim α := b ++ vs.map some

/-- Modelled from the spec: the mutable list arrow builder (ListPrimitive).
It owns an inner values builder plus an outer offsets/validity layer.  Row i
is the (start, end) slice of values delimited by offsets, with one outer
validity bit; capacity hints are recorded as plain advisory data. -/
structure ListPrim (α : Type) where
  values : Prim α
  offsets : List Nat
  validity : List Bool
  rowCapacity : Nat
  valuesCapacity : Nat
deriving DecidableEq, Repr

/-- Modelled from the spec: a fresh list builder with the two capacity hints. -/
def ListPrim.with_capacities (cap vcap : Nat) : ListPrim α :=
  ⟨[], [], [], cap, vcap⟩

/-- Modelled from the spec: close the current list row: record the running
values offset and the outer validity bit. -/
def ListPrim.append (b : ListPrim α) (valid : Bool) : ListPrim α :=
  { b with offsets := b.offsets ++ [b.values.length]
         , validity := b.validity ++ [valid] }

/-- Modelled from the spec: push one optional list row.  none writes a null
list row (outer bit 0, offset unchanged); some vs appends the values and
closes a valid row. -/
def ListPrim.push (b : ListPrim α) (row : Option (List α)) : ListPrim α :=
  match row with
  | some vs => ListPrim.append { b with values := b.values ++ vs.map some } true
  | none => b.append false

/-- Number of closed list rows. -/
def ListPrim.numRows (b : ListPrim α) : Nat := b.validity.length

/-- Start offset of row i: the closing offset of the previous row (0 for the
first row). -/
def ListPrim.rowStart (b : ListPrim α) (i : Nat) : Nat :=
  if i = 0 then 0 else b.offsets.getD (i - 1) 0

/-- Modelled from the spec: the tagged logical value read back at one row of
a list column: Null, or the slice of optional element values of that row. -/
inductive AnyValue (α : Type) where
  | Null : AnyValue α
  | ListVal : List (Option α) → AnyValue α
deriving DecidableEq, Repr

/-- Modelled from the spec: read row i back from a frozen list array:
Null when the outer bit is 0, otherwise the (start, end) values slice. -/
def ListPrim.getRow (b : ListPrim α) (i : Nat) : AnyValue α :=
  if b.validity.getD i false then
    AnyValue.ListVal ((b.values.drop (b.rowStart i)).take
      (b.offsets.getD i 0 - b.rowStart i))
  else AnyValue.Null

/-- Builder-state well-formedness: one closing offset per closed row and the
last recorded offset is the current values length.  Every public operation
of the list builders preserves this; a fresh builder satisfies it. -/
def ListPrim.WF (b : ListPrim α) : Prop :=
  b.offsets.length = b.validity.length ∧
  b.offsets.getLast?.getD 0 = b.values.length

instance (b : ListPrim α) : Decidable b.WF := by
  unfold ListPrim.WF; infer_instance

/-- A finished column: a Field plus an ordered sequence of physical chunks,
each chunk being the list of its optional slot values (validity bit 0 at
none entries).  This models both ChunkedArray of the source and the
type-erased Series handed to the list builders. -/
structure ChunkedArray (α : Type) where
  field : Field
  chunks : List (List (Option α))
deriving DecidableEq, Repr

/-- Column name. -/
def ChunkedArray.name (c : ChunkedArray α) : String := c.field.name

/-- Total length across all chunks. -/
def ChunkedArray.len (c : ChunkedArray α) : Nat := c.chunks.flatten.length

/-- Total null count across all chunks, as reported by the layout layer. -/
def ChunkedArray.null_count (c : ChunkedArray α) : Nat :=
  c.chunks.flatten.countP (fun o => o.isNone)

/-- Modelled from the spec: fetch the optional value at row i (none for a
null slot; only in-range rows are read by the code under verification). -/
def ChunkedArray.get (c : ChunkedArray α) (i : Nat) : Option α :=
  c.chunks.flatten.getD i none

/-- Modelled from the spec: reading the finished column back in order, one
row at a time. -/
def ChunkedArray.read_back (c : ChunkedArray α) : List (Option α) :=
  (List.range c.len).map (fun i => c.get i)

/-- Modelled from the spec: broadcast, a new column of len copies of the
value at index i, in one chunk. -/
def ChunkedArray.expand_at_index (c : ChunkedArray α) (i len : Nat) :
    ChunkedArray α :=
  { c with chunks := [List.replicate len (c.get i)] }

/-- Total byte size of the present string payloads, as reported by
get_values_size. -/
def ChunkedArray.get_values_size (c : ChunkedArray String) : Nat :=
  (c.chunks.flatten.map (fun o => (o.getD "").length)).sum

/-- One physical chunk of a sub-column, as seen by the list builders. -/
abbrev Chunk (α : Type) := List (Option α)

/-- The raw value buffer of a chunk, as returned by get_values: one native
value per slot, with the buffer default at null slots (the arrow builders
write the default native value under a 0 validity bit). -/
def Chunk.get_values [Inhabited α] (a : Chunk α) : List α :=
  a.map (fun o => o.getD default)

/-- The validity bit of slot idx of a chunk. -/
def Chunk.is_valid (a : Chunk α) (idx : Nat) : Bool :=
  (a.getD idx none).isSome

/-- BooleanChunkedBuilder of the source: a BooleanPrimitive plus a Field. -/
structure BooleanChunkedBuilder where
  array_builder : Prim Bool
  field : Field
deriving DecidableEq, Repr

/-- BooleanChunkedBuilder::new (the capacity hint is advisory). -/
def BooleanChunkedBuilder.new (name : String) (_capacity : Nat) :
    BooleanChunkedBuilder :=
  ⟨[], ⟨name, DataType.Boolean⟩⟩

/-- Source: self.array_builder.push(Some(v)). -/
def BooleanChunkedBuilder.append_value (b : BooleanChunkedBuilder)
    (v : Bool) : BooleanChunkedBuilder :=
  { b with array_builder := b.array_builder.push (some v) }

/-- Source: self.array_builder.push(None). -/
def BooleanChunkedBuilder.append_null (b : BooleanChunkedBuilder) :
    BooleanChunkedBuilder :=
  { b with array_builder := b.array_builder.push none }

/-- The ChunkedBuilder trait default: dispatch over append_value and
append_null. -/
def BooleanChunkedBuilder.append_option (b : BooleanChunkedBuilder)
    (opt_val : Option Bool) : BooleanChunkedBuilder :=
  match opt_val with
  | some v => b.append_value v
  | none => b.append_null

/-- Source finish: wrap the accumulated buffer into exactly one chunk. -/
def BooleanChunkedBuilder.finish (b : BooleanChunkedBuilder) :
    ChunkedArray Bool :=
  ⟨b.field, [b.array_builder]⟩

/-- PrimitiveChunkedBuilder of the source. -/
structure PrimitiveChunkedBuilder (α : Type) where
  array_builder : Prim α
  field : Field
deriving DecidableEq, Repr

/-- PrimitiveChunkedBuilder::new with Field::new(name, T::get_dtype()). -/
def PrimitiveChunkedBuilder.new (α : Type) [PolarsDType α] (name : String)
    (_capacity : Nat) : PrimitiveChunkedBuilder α :=
  ⟨[], ⟨name, dtypeOf α⟩⟩

/-- Source: self.array_builder.push(Some(v)). -/
def PrimitiveChunkedBuilder.append_value (b : PrimitiveChunkedBuilder α)
    (v : α) : PrimitiveChunkedBuilder α :=
  { b with array_builder := b.array_builder.push (some v) }

/-- Source: self.array_builder.push(None). -/
def PrimitiveChunkedBuilder.append_null (b : PrimitiveChunkedBuilder α) :
    PrimitiveChunkedBuilder α :=
  { b with array_builder := b.array_builder.push none }

/-- The ChunkedBuilder trait default: dispatch over append_value and
append_null. -/
def PrimitiveChunkedBuilder.append_option (b : PrimitiveChunkedBuilder α)
    (opt_val : Option α) : PrimitiveChunkedBuilder α :=
  match opt_val with
  | some v => b.append_value v
  | none => b.append_null

/-- Source finish: exactly one chunk. -/
def PrimitiveChunkedBuilder.finish (b : PrimitiveChunkedBuilder α) :
    ChunkedArray α :=
  ⟨b.field, [b.array_builder]⟩

/-- Utf8ChunkedBuilder of the source.  The byte-size capacity hint only
pre-sizes the inner byte buffer and is not recorded; the row capacity is a
stored field of the source struct. -/
structure Utf8ChunkedBuilder where
  builder : Prim String
  capacity : Nat
  field : Field
deriving DecidableEq, Repr

/-- Utf8ChunkedBuilder::new(name, capacity, bytes_capacity). -/
def Utf8ChunkedBuilder.new (name : String) (capacity _bytes_capacity : Nat) :
    Utf8ChunkedBuilder :=
  ⟨[], capacity, ⟨name, DataType.Utf8⟩⟩

/-- Source: self.builder.push(Some(v)). -/
def Utf8ChunkedBuilder.append_value (b : Utf8ChunkedBuilder) (v : String) :
    Utf8ChunkedBuilder :=
  { b with builder := b.builder.push (some v) }

/-- Source: self.builder.push(None). -/
def Utf8ChunkedBuilder.append_null (b : Utf8ChunkedBuilder) :
    Utf8ChunkedBuilder :=
  { b with builder := b.builder.push none }

/-- Source: self.builder.push(opt.map(AsRef::as_ref)): the option is pushed
directly, not dispatched. -/
def Utf8ChunkedBuilder.append_option (b : Utf8ChunkedBuilder)
    (opt : Option String) : Utf8ChunkedBuilder :=
  { b with builder := b.builder.push opt }

/-- Source finish: exactly one chunk. -/
def Utf8ChunkedBuilder.finish (b : Utf8ChunkedBuilder) :
    ChunkedArray String :=
  ⟨b.field, [b.builder]⟩

/-- A finished list column: a Field plus frozen list-array chunks (the
builders always finish into exactly one chunk). -/
structure ListChunked (α : Type) where
  field : Field
  chunks : List (ListPrim α)
deriving DecidableEq, Repr

/-- Walk the chunks to the one holding logical row i. -/
def listChunksGet : List (ListPrim α) → Nat → AnyValue α
  | [], _ => AnyValue.Null
  | c :: rest, i => if i < c.numRows then c.getRow i else listChunksGet rest (i - c.numRows)

/-- Modelled from the spec: fetch the logical value of list row i. -/
def ListChunked.get_any_value (c : ListChunked α) (i : Nat) : AnyValue α :=
  listChunksGet c.chunks i

/-- ListPrimitiveChunkedBuilder of the source. -/
structure ListPrimitiveChunkedBuilder (α : Type) where
  builder : ListPrim α
  field : Field
deriving DecidableEq, Repr

/-- ListPrimitiveChunkedBuilder::new(name, capacity, values_capacity) with
Field::new(name, DataType::List(T::get_dtype().to_arrow())). -/
def ListPrimitiveChunkedBuilder.new (α : Type) [PolarsDType α]
    (name : String) (capacity values_capacity : Nat) :
    ListPrimitiveChunkedBuilder α :=
  { builder := ListPrim.with_capacities capacity values_capacity
  , field := ⟨name, DataType.list (dtypeOf α)⟩ }

/-- Source append_null: self.builder.push(None). -/
def ListPrimitiveChunkedBuilder.append_null
    (b : ListPrimitiveChunkedBuilder α) : ListPrimitiveChunkedBuilder α :=
  { b with builder := b.builder.push none }

/-- Source append_series: for each physical chunk of the sub-column, either
bulk-append its raw value slice (when the sub-column reports zero nulls) or
append slot by slot according to the per-slot validity; then close the list
row with outer bit 1. -/
def ListPrimitiveChunkedBuilder.append_series [Inhabited α]
    (b : ListPrimitiveChunkedBuilder α) (s : ChunkedArray α) :
    ListPrimitiveChunkedBuilder α :=
  let builder := s.chunks.foldl (fun builder a =>
      if s.null_count = 0 then
        Prim.append_slice builder (Chunk.get_values a)
      else
        (Chunk.get_values a).enum.foldl (fun builder p =>
          if Chunk.is_valid a p.1 then Prim.append_value builder p.2
          else Prim.append_null builder) builder)
    b.builder.values
  { b with builder := ListPrim.append { b.builder with values := builder } true }

/-- Source append_opt_series: Some goes to append_series, None pushes a null
list row. -/
def ListPrimitiveChunkedBuilder.append_opt_series [Inhabited α]
    (b : ListPrimitiveChunkedBuilder α) (opt_s : Option (ChunkedArray α)) :
    ListPrimitiveChunkedBuilder α :=
  match opt_s with
  | some s => b.append_series s
  | none => { b with builder := b.builder.push none }

/-- Source finish (finish_list_builder macro): one frozen chunk. -/
def ListPrimitiveChunkedBuilder.finish (b : ListPrimitiveChunkedBuilder α) :
    ListChunked α :=
  ⟨b.field, [b.builder]⟩

/-- ListUtf8ChunkedBuilder of the source. -/
structure ListUtf8ChunkedBuilder where
  builder : ListPrim String
  field : Field
deriving DecidableEq, Repr

/-- ListUtf8ChunkedBuilder::new(name, capacity, values_capacity). -/
def ListUtf8ChunkedBuilder.new (name : String)
    (capacity values_capacity : Nat) : ListUtf8ChunkedBuilder :=
  { builder := ListPrim.with_capacities capacity values_capacity
  , field := ⟨name, DataType.list DataType.Utf8⟩ }

/-- Source append_null of ListUtf8ChunkedBuilder: it appends a null VALUE to
the inner values builder and then closes the list row with outer bit 1
(self.builder.values().append_null() followed by self.builder.append(true)). -/
def ListUtf8ChunkedBuilder.append_null (b : ListUtf8ChunkedBuilder) :
    ListUtf8ChunkedBuilder :=
  let builder := b.builder.values.append_null
  { b with builder := ListPrim.append { b.builder with values := builder } true }

/-- Source append_series: iterate every slot of the utf8 sub-column across
all its chunks, appending value or null to the inner builder, then close the
row with outer bit 1. -/
def ListUtf8ChunkedBuilder.append_series (b : ListUtf8ChunkedBuilder)
    (s : ChunkedArray String) : ListUtf8ChunkedBuilder :=
  let value_builder := s.chunks.flatten.foldl (fun value_builder o =>
      match o with
      | some str => Prim.append_value value_builder str
      | none => Prim.append_null value_builder)
    b.builder.values
  { b with builder := ListPrim.append { b.builder with values := value_builder } true }

/-- Source append_opt_series: Some goes to append_series, None closes a null
list row via self.builder.append(false). -/
def ListUtf8ChunkedBuilder.append_opt_series (b : ListUtf8ChunkedBuilder)
    (opt_s : Option (ChunkedArray String)) : ListUtf8ChunkedBuilder :=
  match opt_s with
  | some s => b.append_series s
  | none => { b with builder := b.builder.append false }

/-- Source finish (finish_list_builder macro). -/
def ListUtf8ChunkedBuilder.finish (b : ListUtf8ChunkedBuilder) :
    ListChunked String :=
  ⟨b.field, [b.builder]⟩

/-- ListBooleanChunkedBuilder of the source. -/
structure ListBooleanChunkedBuilder where
  builder : ListPrim Bool
  field : Field
deriving DecidableEq, Repr

/-- ListBooleanChunkedBuilder::new(name, capacity, values_capacity). -/
def ListBooleanChunkedBuilder.new (name : String)
    (capacity values_capacity : Nat) : ListBooleanChunkedBuilder :=
  { builder := ListPrim.with_capacities capacity values_capacity
  , field := ⟨name, DataType.list DataType.Boolean⟩ }

/-- Source append_null of ListBooleanChunkedBuilder: like the utf8 variant,
it appends a null VALUE to the inner values builder and closes the row with
outer bit 1. -/
def ListBooleanChunkedBuilder.append_null (b : ListBooleanChunkedBuilder) :
    ListBooleanChunkedBuilder :=
  let builder := b.builder.values.append_null
  { b with builder := ListPrim.append { b.builder with values := builder } true }

/-- Source append_series: iterate every slot of the boolean sub-column
across all its chunks, then close the row with outer bit 1. -/
def ListBooleanChunkedBuilder.append_series (b : ListBooleanChunkedBuilder)
    (s : ChunkedArray Bool) : ListBooleanChunkedBuilder :=
  let value_builder := s.chunks.flatten.foldl (fun value_builder o =>
      match o with
      | some v => Prim.append_value value_builder v
      | none => Prim.append_null value_builder)
    b.builder.values
  { b with builder := ListPrim.append { b.builder with values := value_builder } true }

/-- Source append_opt_series: Some goes to append_series, None closes a null
list row via self.builder.append(false). -/
def ListBooleanChunkedBuilder.append_opt_series
    (b : ListBooleanChunkedBuilder) (opt_s : Option (ChunkedArray Bool)) :
    ListBooleanChunkedBuilder :=
  match opt_s with
  | some s => b.append_series s
  | none => { b with builder := b.builder.append false }

/-- Source finish (finish_list_builder macro). -/
def ListBooleanChunkedBuilder.finish (b : ListBooleanChunkedBuilder) :
    ListChunked Bool :=
  ⟨b.field, [b.builder]⟩

/-- The type-erased handle returned by the factory: one of the three
concrete list-builder variants behind the ListBuilderTrait capability. -/
inductive ListBuilderVariant where
  | primitive : ListPrimitiveChunkedBuilder Int → ListBuilderVariant
  | utf8 : ListUtf8ChunkedBuilder → ListBuilderVariant
  | boolean : ListBooleanChunkedBuilder → ListBuilderVariant
deriving DecidableEq, Repr

/-- get_list_builder of the source.  The dispatch macro
(match_arrow_data_type_apply_macro) is modelled from the spec: it matches
the element type over the closed set, with a fatal unimplemented arm for
any other kind (here none).  The utf8 arm is
ListUtf8ChunkedBuilder::new(name, list_capacity, 5 * value_capacity) and the
boolean arm is ListBooleanChunkedBuilder::new(name, list_capacity,
value_capacity), exactly as in the source.  The numeric arm of the source
invokes ListPrimitiveChunkedBuilder::new(&name, value_capacity) with only
two of the three required arguments and with the element type unbound, an
ill-typed call that cannot be compiled or executed, so no numeric builder
value exists to return: that arm is rendered none as well. -/
def get_list_builder (dt : DataType) (value_capacity list_capacity : Nat)
    (name : String) : Option ListBuilderVariant :=
  match dt with
  | DataType.Utf8 =>
      some (ListBuilderVariant.utf8
        (ListUtf8ChunkedBuilder.new name list_capacity (5 * value_capacity)))
  | DataType.Boolean =>
      some (ListBuilderVariant.boolean
        (ListBooleanChunkedBuilder.new name list_capacity value_capacity))
  | DataType.Numeric => none
  | _ => none

/-- Modelled from the spec: the structured error taxonomy of the checked
error paths (PolarsError of the source, restricted to the variants used by
concat_str). -/
inductive PolarsError where
  | NoData : String → PolarsError
  | ValueError : String → PolarsError
deriving DecidableEq, Repr

/-- IterBroadCast of the source: a streaming source consumed one slot per
output row, or a constant (length-1) source whose single optional value is
yielded again at every row. -/
inductive IterBroadCast where
  | Column : List (Option String) → IterBroadCast
  | Value : Option String → IterBroadCast
deriving DecidableEq, Repr

/-- The value produced by the i-th next() call on a source.  The source
iterators are advanced exactly once per output row, so the stateful
Column iterator yields its slot i at row i; the Value source yields its
constant at every row. -/
def IterBroadCast.atNext (it : IterBroadCast) (i : Nat) :
    Option (Option String) :=
  match it with
  | IterBroadCast.Column vals => vals[i]?
  | IterBroadCast.Value val => some val

/-- Maximum input length, as computed by concat_str on a nonempty input
(s.iter().map(len).max().unwrap()). -/
def maxLen (s : List (ChunkedArray String)) : Nat :=
  (s.map (fun c => c.len)).foldl Nat.max 0

/-- The cast-and-broadcast pass of concat_str: each length-1 input is
expanded to len copies when len exceeds 1.  The cast to utf8 is the
identity on the already-string-typed inputs modelled here. -/
def broadcastCols (s : List (ChunkedArray String)) (len : Nat) :
    List (ChunkedArray String) :=
  s.map (fun c => if c.len = 1 ∧ 1 < len then c.expand_at_index 0 len else c)

/-- The source classification of the (already broadcast) inputs: length-1
columns become constant Value sources, the others streaming Column
sources iterated across all their chunks. -/
def mkIters (cas : List (ChunkedArray String)) : List IterBroadCast :=
  cas.map (fun ca => if ca.len = 1 then IterBroadCast.Value (ca.get 0)
    else IterBroadCast.Column ca.chunks.flatten)

/-- One step of the row loop of concat_str for source number p.1: push the
delimiter into the scratch buffer before every source but the first, then
push the value of this source, or record the null in the flag.  The last
arm is marked unreachable in the source (the outer loop counts to the
checked length), so it leaves the accumulator unchanged. -/
def concatStep (delimiter : String) (i : Nat) (acc : String × Bool)
    (p : Nat × IterBroadCast) : String × Bool :=
  let buf := if 0 < p.1 then acc.1 ++ delimiter else acc.1
  match p.2.atNext i with
  | some (some str) => (buf ++ str, acc.2)
  | some none => (buf, true)
  | none => (buf, acc.2)

/-- The scratch buffer and has-null flag after one full row of the
concat_str loop over the enumerated sources. -/
def concatRowAcc (delimiter : String) (iters : List IterBroadCast)
    (i : Nat) : String × Bool :=
  iters.enum.foldl (concatStep delimiter i) ("", false)

/-- Default column for the out-of-range first-input lookup (never reached
on a nonempty input). -/
def emptyUtf8 : ChunkedArray String := ⟨⟨"", DataType.Utf8⟩, []⟩

/-- concat_str of the source: empty input reports NoData; inputs are cast
and broadcast; any input whose length is neither 1 nor the maximum reports
ValueError before the output string builder exists; otherwise each output
row is assembled in the scratch buffer and appended (null when any source
yielded null at that row), and the finished column carries the name of the
first input. -/
def concat_str (s : List (ChunkedArray String)) (delimiter : String) :
    Except PolarsError (ChunkedArray String) :=
  if s.isEmpty then
    Except.error (PolarsError.NoData
      "expected multiple series in concat_str function")
  else
    let len := maxLen s
    let cas := broadcastCols s len
    if ¬ (∀ c ∈ s, c.len = 1 ∨ c.len = len) then
      Except.error (PolarsError.ValueError
        "all series in concat_str function should have equal length or unit length")
    else
      let iters := mkIters cas
      let bytes_cap := (cas.map ChunkedArray.get_values_size).sum
      let builder := Utf8ChunkedBuilder.new (s.headD emptyUtf8).name len bytes_cap
      let builder := (List.range len).foldl (fun builder i =>
          let r := concatRowAcc delimiter iters i
          if r.2 then builder.append_null else builder.append_value r.1) builder
      Except.ok builder.finish

/-- The strings of the sources joined in input order by the delimiter. -/
def joinWith (d : String) : List String → String
  | [] => ""
  | v :: rest => rest.foldl (fun acc s => acc ++ d ++ s) v

/-- The value input c contributes to output row i: its single value for a
length-1 constant source, its slot-i value for a streaming source. -/
def sourceAt (c : ChunkedArray String) (i : Nat) : Option String :=
  if c.len = 1 then c.get 0 else c.get i

/-- The expected output row i of concat_str: null exactly when some source
is null at that row, otherwise the source strings joined in input order by
the delimiter. -/
def rowSpec (ss : List (ChunkedArray String)) (d : String) (i : Nat) :
    Option String :=
  let vs := ss.map (fun c => sourceAt c i)
  if vs.any Option.isNone then none
  else some (joinWith d (vs.map (fun o => o.getD "")))

/-- Witness input: a single-chunk string column of length 2. -/
def sLen2 : ChunkedArray String :=
  ⟨⟨"a", DataType.Utf8⟩, [[some "x", some "y"]]⟩

/-- Witness input: a single-chunk string column of length 3. -/
def sLen3 : ChunkedArray String :=
  ⟨⟨"b", DataType.Utf8⟩, [[some "u", some "v", some "w"]]⟩

/-- Witness input: a streaming string column with a null at row 1. -/
def sStreamWit : ChunkedArray String :=
  ⟨⟨"a", DataType.Utf8⟩, [[some "a1", none, some "a3"]]⟩

/-- Witness input: a constant (length-1) string column. -/
def sConstWit : ChunkedArray String :=
  ⟨⟨"b", DataType.Utf8⟩, [[some "lit"]]⟩

/-- Concrete sub-column used by witnesses: two chunks of Int values with one
inner null. -/
def cIntWit : ChunkedArray Int :=
  ⟨⟨"c", DataType.Numeric⟩, [[some 1], [none, some 2]]⟩

/-- Concrete sub-column used by witnesses: two chunks of strings with one
inner null. -/
def cStrWit : ChunkedArray String :=
  ⟨⟨"c", DataType.Utf8⟩, [[some "x"], [none, some "y"]]⟩

/-- Concrete sub-column used by witnesses: zero nulls, split into two
physical chunks. -/
def cNoNullWit : ChunkedArray Int :=
  ⟨⟨"c", DataType.Numeric⟩, [[some 1, some 2], [some 3]]⟩

/-- The three-row builder run of claim C5: append_null, then an empty
sub-column, then a one-element sub-column, then finish. -/
def threeStateRun (v : Int) : ListChunked Int :=
  ((((ListPrimitiveChunkedBuilder.new Int "a" 10 5).append_null).append_series
      ⟨⟨"e", DataType.Numeric⟩, [[]]⟩).append_series
      ⟨⟨"w", DataType.Numeric⟩, [[some v]]⟩).finish

end Polars

namespace Polars

/-- Folding a push of f over a list appends the mapped list. -/
theorem foldl_push_eq_append (f : γ → Option β) :
    ∀ (l : List γ) (init : Prim β),
      l.foldl (fun acc x => Prim.push acc (f x)) init = init ++ l.map f := by
  intro l
  induction l with
  | nil => intro init; simp
  | cons x xs ih =>
    intro init
    simp only [Prim.push] at ih ⊢
    simp only [List.foldl_cons, List.map_cons]
    rw [ih]
    simp [List.append_assoc]

/-- The slot-by-slot reconstruction of a chunk from its raw value buffer and
its validity bits is the chunk itself. -/
theorem enum_map_valid [Inhabited α] (a : Chunk α) :
    (Chunk.get_values a).enum.map
      (fun p : Nat × α => if Chunk.is_valid a p.1 then some p.2 else none) = a := by
  apply List.ext_getElem
  · simp [Chunk.get_values]
  · intro i h1 h2
    have hlen : i < a.length := by simpa [Chunk.get_values] using h2
    simp only [List.getElem_map, List.getElem_enum]
    unfold Chunk.is_valid
    rw [List.getD_eq_getElem a none hlen]
    cases h : a[i] <;> simp [Chunk.get_values, h, hlen]

/-- The per-element path of append_series appends exactly the slots of the
chunk: valid slots as values, invalid slots as nulls. -/
theorem perElement_eq_append [Inhabited α] (a : Chunk α) (init : Prim α) :
    (Chunk.get_values a).enum.foldl (fun builder p =>
      if Chunk.is_valid a p.1 then Prim.append_value builder p.2
      else Prim.append_null builder) init = init ++ a := by
  have hfun : (fun (builder : Prim α) (p : Nat × α) =>
      if Chunk.is_valid a p.1 then Prim.append_value builder p.2
      else Prim.append_null builder)
      = fun (builder : Prim α) (p : Nat × α) =>
          Prim.push builder (if Chunk.is_valid a p.1 then some p.2 else none) := by
    funext builder p
    by_cases h : Chunk.is_valid a p.1 <;>
      simp [h, Prim.append_value, Prim.append_null]
  rw [hfun, foldl_push_eq_append, enum_map_valid]

/-- A chunk with only valid slots equals its raw value buffer marked valid. -/
theorem map_some_get_values [Inhabited α] :
    ∀ (a : Chunk α), (∀ o ∈ a, o.isSome) → (Chunk.get_values a).map some = a := by
  intro a
  induction a with
  | nil => intro _; simp [Chunk.get_values]
  | cons o rest ih =>
    intro h
    obtain ⟨v, rfl⟩ := Option.isSome_iff_exists.mp (h o (List.mem_cons_self o rest))
    have := ih fun x hx => h x (List.mem_cons_of_mem _ hx)
    simp [Chunk.get_values] at this ⊢
    exact this

/-- Folding list append over chunks concatenates them after the start. -/
theorem foldl_append_eq_flatten :
    ∀ (l : List (List γ)) (init : List γ),
      l.foldl (fun acc x => acc ++ x) init = init ++ l.flatten := by
  intro l
  induction l with
  | nil => intro init; simp
  | cons x xs ih => intro init; simp [ih, List.append_assoc]

/-- A sub-column reporting zero nulls has only valid slots in every chunk. -/
theorem zero_null_chunk_all_some (s : ChunkedArray α) (h : s.null_count = 0)
    (a : Chunk α) (ha : a ∈ s.chunks) : ∀ o ∈ a, o.isSome := by
  intro o ho
  have hmem : o ∈ s.chunks.flatten := List.mem_flatten.mpr ⟨a, ha, ho⟩
  have hno := List.countP_eq_zero.mp h o hmem
  cases o with
  | none => simp at hno
  | some v => simp

/-- Characterization of the primitive append_series: whichever of the bulk
and per-element paths runs, every source chunk contributes exactly its
slots, so the inner values builder grows by the flattened sub-column and one
valid row is closed. -/
theorem append_series_prim_eq [Inhabited α] (b : ListPrimitiveChunkedBuilder α)
    (s : ChunkedArray α) :
    b.append_series s
      = { b with builder := (ListPrim.append
          { b.builder with values := b.builder.values ++ s.chunks.flatten } true) } := by
  have hbody : ∀ (acc : Prim α), ∀ a ∈ s.chunks,
      (if s.null_count = 0 then Prim.append_slice acc (Chunk.get_values a)
       else (Chunk.get_values a).enum.foldl (fun builder p =>
         if Chunk.is_valid a p.1 then Prim.append_value builder p.2
         else Prim.append_null builder) acc) = acc ++ a := by
    intro acc a ha
    by_cases h : s.null_count = 0
    · rw [if_pos h]
      unfold Prim.append_slice
      rw [map_some_get_values a (zero_null_chunk_all_some s h a ha)]
    · rw [if_neg h, perElement_eq_append]
  have hfold := List.foldl_ext _ (fun (acc : Prim α) (a : Chunk α) => acc ++ a)
    b.builder.values hbody
  simp only [ListPrimitiveChunkedBuilder.append_series]
  rw [hfold, foldl_append_eq_flatten]

/-- Characterization of the utf8 append_series: the inner values builder
grows by the flattened sub-column and one valid row is closed. -/
theorem append_series_utf8_eq (b : ListUtf8ChunkedBuilder)
    (s : ChunkedArray String) :
    b.append_series s
      = { b with builder := (ListPrim.append
          { b.builder with values := b.builder.values ++ s.chunks.flatten } true) } := by
  have hfun : (fun (value_builder : Prim String) (o : Option String) =>
      match o with
      | some str => Prim.append_value value_builder str
      | none => Prim.append_null value_builder)
      = fun (value_builder : Prim String) (o : Option String) =>
          Prim.push value_builder ((fun x => x) o) := by
    funext value_builder o
    cases o <;> rfl
  have hfold := foldl_push_eq_append (fun x : Option String => x)
    s.chunks.flatten b.builder.values
  simp only [ListUtf8ChunkedBuilder.append_series]
  rw [hfun, hfold]
  simp

/-- Closing a row after extending the values of a well-formed list builder
reads that row back as exactly the appended slots. -/
theorem getRow_close (b : ListPrim α) (hb : b.WF) (extra : List (Option α)) :
    (ListPrim.append { b with values := b.values ++ extra } true).getRow b.numRows
      = AnyValue.ListVal extra := by
  obtain ⟨v, offs, val, rc, vc⟩ := b
  obtain ⟨hlen, hlast⟩ := hb
  simp only at hlen hlast
  simp only [ListPrim.append, ListPrim.getRow, ListPrim.numRows, ListPrim.rowStart]
  have hbit : (val ++ [true]).getD val.length false = true := by
    rw [List.getD_append_right val [true] false val.length (Nat.le_refl _)]
    simp
  have hoff2 : (offs ++ [(v ++ extra).length]).getD val.length 0
      = v.length + extra.length := by
    rw [← hlen, List.getD_append_right offs _ 0 offs.length (Nat.le_refl _)]
    simp
  have hstart : (if val.length = 0 then 0
      else (offs ++ [(v ++ extra).length]).getD (val.length - 1) 0) = v.length := by
    by_cases h0 : val.length = 0
    · rw [if_pos h0]
      have hoffs : offs = [] := List.length_eq_zero.mp (by rw [hlen, h0])
      rw [hoffs] at hlast
      simpa using hlast
    · rw [if_neg h0, ← hlen]
      have hlt : offs.length - 1 < offs.length := by
        rw [hlen]; omega
      rw [List.getD_append offs _ 0 _ hlt, List.getD_eq_getElem?_getD,
        ← List.getLast?_eq_getElem?]
      exact hlast
  rw [hbit, hstart, hoff2]
  simp [List.drop_left, Nat.add_sub_cancel_left, List.take_length]

/-- Claim C1: the claim states that for every list-builder variant,
append_null appends no inner values and writes a null list row.  That holds
for the numeric variant (first two conjuncts) but fails on the code for the
Utf8 and Boolean variants: their append_null appends one null value to the
inner values builder (running offset advances from 0 to 1) and sets the
outer validity bit to 1, so the row reads back as a valid one-element list
holding a null, not as Null. -/
theorem C1_append_null_evaluation :
    ((ListPrimitiveChunkedBuilder.new Int "a" 3 3).append_null).finish.get_any_value 0
      = AnyValue.Null
    ∧ ((ListPrimitiveChunkedBuilder.new Int "a" 3 3).append_null).builder.values = []
    ∧ ((ListUtf8ChunkedBuilder.new "a" 3 3).append_null).finish.get_any_value 0
      = AnyValue.ListVal [none]
    ∧ ((ListUtf8ChunkedBuilder.new "a" 3 3).append_null).builder.values.length = 1
    ∧ ((ListBooleanChunkedBuilder.new "a" 3 3).append_null).finish.get_any_value 0
      = AnyValue.ListVal [none]
    ∧ ((ListBooleanChunkedBuilder.new "a" 3 3).append_null).builder.values.length = 1 := by
  refine ⟨rfl, rfl, rfl, rfl, rfl, rfl⟩

/-- Claim C2: the claim states that append_opt_series(None) coincides with
append_null on every variant and that append_opt_series(Some c) coincides
with append_series(c).  The Some direction holds for all three variants and
the None direction holds for the numeric variant, but on the Utf8 and
Boolean variants the code diverges: append_opt_series(None) writes a null
list row while append_null writes a valid row containing one null value. -/
theorem C2_append_opt_series_evaluation :
    (∀ (b : ListPrimitiveChunkedBuilder Int), b.append_opt_series none = b.append_null)
    ∧ (∀ (b : ListPrimitiveChunkedBuilder Int) (s : ChunkedArray Int),
        b.append_opt_series (some s) = b.append_series s)
    ∧ (∀ (b : ListUtf8ChunkedBuilder) (s : ChunkedArray String),
        b.append_opt_series (some s) = b.append_series s)
    ∧ (∀ (b : ListBooleanChunkedBuilder) (s : ChunkedArray Bool),
        b.append_opt_series (some s) = b.append_series s)
    ∧ ((ListUtf8ChunkedBuilder.new "a" 3 3).append_opt_series none
        ≠ (ListUtf8ChunkedBuilder.new "a" 3 3).append_null)
    ∧ ((ListBooleanChunkedBuilder.new "a" 3 3).append_opt_series none
        ≠ (ListBooleanChunkedBuilder.new "a" 3 3).append_null) := by
  refine ⟨fun b => rfl, fun b s => rfl, fun b s => rfl, fun b s => rfl,
    by decide, by decide⟩

/-- Claim C5: on one (numeric) list builder, append_null, then an empty
sub-column, then a one-element sub-column, read back after finish as exactly
[Null, EmptyList, List([v])], in order. -/
theorem C5_three_state_distinction (v : Int) :
    (threeStateRun v).get_any_value 0 = AnyValue.Null
    ∧ (threeStateRun v).get_any_value 1 = AnyValue.ListVal []
    ∧ (threeStateRun v).get_any_value 2 = AnyValue.ListVal [some v] := by
  refine ⟨rfl, rfl, rfl⟩

/-- Claim C3: for every well-formed list builder and every finished
sub-column c, whatever the physical chunking of c, append_series(c) then
finish yields a list row equal to the flattening of c: its value sequence
has the total length of c and its per-position nulls are exactly the
per-position nulls of c (never collapsed into a null list).  Stated for the
numeric and utf8 variants cited by the claim. -/
theorem C3_append_series_flattening (α : Type) [Inhabited α]
    (b : ListPrimitiveChunkedBuilder α) (hb : b.builder.WF) (s : ChunkedArray α)
    (u : ListUtf8ChunkedBuilder) (hu : u.builder.WF) (t : ChunkedArray String) :
    (b.append_series s).finish.get_any_value b.builder.numRows
      = AnyValue.ListVal s.chunks.flatten
    ∧ (u.append_series t).finish.get_any_value u.builder.numRows
      = AnyValue.ListVal t.chunks.flatten := by
  constructor
  · rw [append_series_prim_eq]
    simp only [ListPrimitiveChunkedBuilder.finish, ListChunked.get_any_value,
      listChunksGet]
    have hlt : b.builder.numRows < (ListPrim.append
        { b.builder with values := b.builder.values ++ s.chunks.flatten }
        true).numRows := by
      simp [ListPrim.append, ListPrim.numRows]
    rw [if_pos hlt]
    exact getRow_close b.builder hb s.chunks.flatten
  · rw [append_series_utf8_eq]
    simp only [ListUtf8ChunkedBuilder.finish, ListChunked.get_any_value,
      listChunksGet]
    have hlt : u.builder.numRows < (ListPrim.append
        { u.builder with values := u.builder.values ++ t.chunks.flatten }
        true).numRows := by
      simp [ListPrim.append, ListPrim.numRows]
    rw [if_pos hlt]
    exact getRow_close u.builder hu t.chunks.flatten

/-- Witness for claim C3 at a concrete two-chunk sub-column with an inner
null, on fresh builders. -/
theorem C3_append_series_flattening_witness :
    ((ListPrimitiveChunkedBuilder.new Int "a" 1 1).append_series cIntWit).finish.get_any_value
        (ListPrimitiveChunkedBuilder.new Int "a" 1 1).builder.numRows
      = AnyValue.ListVal cIntWit.chunks.flatten
    ∧ ((ListUtf8ChunkedBuilder.new "a" 1 1).append_series cStrWit).finish.get_any_value
        (ListUtf8ChunkedBuilder.new "a" 1 1).builder.numRows
      = AnyValue.ListVal cStrWit.chunks.flatten :=
  C3_append_series_flattening Int (ListPrimitiveChunkedBuilder.new Int "a" 1 1)
    (by decide) cIntWit (ListUtf8ChunkedBuilder.new "a" 1 1) (by decide) cStrWit

/-- Claim C4: for a sub-column with zero nulls split into more than one
physical chunk, append_series leaves the builder in exactly the state
reached from the same values supplied as a single chunk: the bulk path and
the chunk boundaries are invisible in the destination. -/
theorem C4_bulk_per_element_equivalence (α : Type) [Inhabited α]
    (b : ListPrimitiveChunkedBuilder α) (s : ChunkedArray α)
    (_h0 : s.null_count = 0) (_hN : 1 < s.chunks.length) :
    b.append_series s = b.append_series ⟨s.field, [s.chunks.flatten]⟩ := by
  rw [append_series_prim_eq, append_series_prim_eq]
  simp

/-- Witness for claim C4 at a concrete zero-null two-chunk sub-column. -/
theorem C4_bulk_per_element_equivalence_witness :
    (ListPrimitiveChunkedBuilder.new Int "a" 1 1).append_series cNoNullWit
      = (ListPrimitiveChunkedBuilder.new Int "a" 1 1).append_series
          ⟨cNoNullWit.field, [cNoNullWit.chunks.flatten]⟩ :=
  C4_bulk_per_element_equivalence Int (ListPrimitiveChunkedBuilder.new Int "a" 1 1)
    cNoNullWit (by decide) (by decide)

/-- Witness for claim C5 at the concrete element value 7. -/
theorem C5_three_state_distinction_witness :
    (threeStateRun 7).get_any_value 0 = AnyValue.Null
    ∧ (threeStateRun 7).get_any_value 1 = AnyValue.ListVal []
    ∧ (threeStateRun 7).get_any_value 2 = AnyValue.ListVal [some 7] :=
  C5_three_state_distinction 7

/-- Claim C6: the factory dispatch over the closed element-kind set.  The
Utf8 arm returns the utf8 variant with inner values byte-capacity 5 times
the value-capacity hint, the Boolean arm returns the boolean variant, and
the non-element kinds are fatal (none).  The numeric arm of the source is an
ill-typed constructor call (two of three required arguments, element type
unbound) and therefore yields no builder, against the claim. -/
theorem C6_get_list_builder_dispatch :
    get_list_builder DataType.Utf8 7 3 "n"
      = some (ListBuilderVariant.utf8 (ListUtf8ChunkedBuilder.new "n" 3 (5 * 7)))
    ∧ (ListUtf8ChunkedBuilder.new "n" 3 (5 * 7)).builder.valuesCapacity = 5 * 7
    ∧ get_list_builder DataType.Boolean 7 3 "n"
      = some (ListBuilderVariant.boolean (ListBooleanChunkedBuilder.new "n" 3 7))
    ∧ get_list_builder DataType.Numeric 7 3 "n" = none
    ∧ get_list_builder (DataType.list DataType.Numeric) 7 3 "n" = none
    ∧ get_list_builder DataType.Categorical 7 3 "n" = none := by
  refine ⟨rfl, rfl, rfl, rfl, rfl, rfl⟩

/-- Reading every position of a list by index reproduces the list. -/
theorem range_map_getD (l : List (Option α)) :
    (List.range l.length).map (fun i => l.getD i none) = l := by
  apply List.ext_getElem
  · simp
  · intro i h1 h2
    simp only [List.getElem_map, List.getElem_range]
    exact List.getD_eq_getElem l none h2

/-- Reading back a single-chunk column yields exactly its slots. -/
theorem read_back_single_chunk (fld : Field) (l : List (Option α)) :
    (ChunkedArray.mk fld [l]).read_back = l := by
  have hf : ([l] : List (List (Option α))).flatten = l := by simp
  simp only [ChunkedArray.read_back, ChunkedArray.len, ChunkedArray.get, hf]
  exact range_map_getD l

/-- Folding append_option over a primitive builder appends the slots. -/
theorem prim_foldl_append_option [PolarsDType α] (xs : List (Option α)) :
    ∀ (b : PrimitiveChunkedBuilder α),
      xs.foldl (fun b o => b.append_option o) b
        = { b with array_builder := b.array_builder ++ xs } := by
  induction xs with
  | nil => intro b; simp
  | cons o rest ih =>
    intro b
    rw [List.foldl_cons, ih]
    have hb : b.append_option o
        = { b with array_builder := b.array_builder ++ [o] } := by
      cases o <;> simp [PrimitiveChunkedBuilder.append_option,
        PrimitiveChunkedBuilder.append_value, PrimitiveChunkedBuilder.append_null,
        Prim.push]
    rw [hb]
    simp [List.append_assoc]

/-- Folding append_option over a boolean builder appends the slots. -/
theorem bool_foldl_append_option (xs : List (Option Bool)) :
    ∀ (b : BooleanChunkedBuilder),
      xs.foldl (fun b o => b.append_option o) b
        = { b with array_builder := b.array_builder ++ xs } := by
  induction xs with
  | nil => intro b; simp
  | cons o rest ih =>
    intro b
    rw [List.foldl_cons, ih]
    have hb : b.append_option o
        = { b with array_builder := b.array_builder ++ [o] } := by
      cases o <;> simp [BooleanChunkedBuilder.append_option,
        BooleanChunkedBuilder.append_value, BooleanChunkedBuilder.append_null,
        Prim.push]
    rw [hb]
    simp [List.append_assoc]

/-- Folding append_option over a utf8 builder appends the slots. -/
theorem utf8_foldl_append_option (xs : List (Option String)) :
    ∀ (b : Utf8ChunkedBuilder),
      xs.foldl (fun b o => b.append_option o) b
        = { b with builder := b.builder ++ xs } := by
  induction xs with
  | nil => intro b; simp
  | cons o rest ih =>
    intro b
    rw [List.foldl_cons, ih]
    have hb : b.append_option o = { b with builder := b.builder ++ [o] } := by
      simp [Utf8ChunkedBuilder.append_option, Prim.push]
    rw [hb]
    simp [List.append_assoc]

/-- Claim C9: feeding any finite sequence of optional scalars through
append_option into a fresh builder and finishing reads back the identical
sequence, nulls included, for the numeric, boolean and utf8 scalar
builders. -/
theorem C9_append_option_round_trip (xs : List (Option Int))
    (bs : List (Option Bool)) (ts : List (Option String)) :
    ((xs.foldl (fun b o => b.append_option o)
        (PrimitiveChunkedBuilder.new Int "p" 6)).finish).read_back = xs
    ∧ ((bs.foldl (fun b o => b.append_option o)
        (BooleanChunkedBuilder.new "b" 6)).finish).read_back = bs
    ∧ ((ts.foldl (fun b o => b.append_option o)
        (Utf8ChunkedBuilder.new "s" 6 30)).finish).read_back = ts := by
  refine ⟨?_, ?_, ?_⟩
  · rw [prim_foldl_append_option]
    simp [PrimitiveChunkedBuilder.finish, PrimitiveChunkedBuilder.new,
      read_back_single_chunk]
  · rw [bool_foldl_append_option]
    simp [BooleanChunkedBuilder.finish, BooleanChunkedBuilder.new,
      read_back_single_chunk]
  · rw [utf8_foldl_append_option]
    simp [Utf8ChunkedBuilder.finish, Utf8ChunkedBuilder.new,
      read_back_single_chunk]

/-- Witness for claim C9 at concrete sequences holding nulls. -/
theorem C9_append_option_round_trip_witness :
    (([some (1 : Int), none, some 2].foldl (fun b o => b.append_option o)
        (PrimitiveChunkedBuilder.new Int "p" 6)).finish).read_back
      = [some (1 : Int), none, some 2]
    ∧ (([some true, none].foldl (fun b o => b.append_option o)
        (BooleanChunkedBuilder.new "b" 6)).finish).read_back
      = [some true, none]
    ∧ (([some "x", none].foldl (fun b o => b.append_option o)
        (Utf8ChunkedBuilder.new "s" 6 30)).finish).read_back
      = [some "x", none] :=
  C9_append_option_round_trip [some 1, none, some 2] [some true, none]
    [some "x", none]

/-- Claim C7: concat_str on an empty input reports the no-data error, and
on a nonempty input containing a column whose length is neither 1 nor the
maximum reports the length-mismatch error; both checks fire before the
output string builder is created. -/
theorem C7_concat_str_error_paths (d : String)
    (ss : List (ChunkedArray String)) (hne : ss ≠ [])
    (hbad : ∃ c ∈ ss, c.len ≠ 1 ∧ c.len ≠ maxLen ss) :
    concat_str [] d
      = Except.error (PolarsError.NoData
          "expected multiple series in concat_str function")
    ∧ concat_str ss d
      = Except.error (PolarsError.ValueError
          "all series in concat_str function should have equal length or unit length") := by
  constructor
  · rfl
  · have h1 : ss.isEmpty = false := by
      cases ss with
      | nil => exact absurd rfl hne
      | cons a l => rfl
    have h2 : ¬ (∀ c ∈ ss, c.len = 1 ∨ c.len = maxLen ss) := by
      obtain ⟨c, hc, hA, hB⟩ := hbad
      intro hall
      rcases hall c hc with h | h
      · exact hA h
      · exact hB h
    simp only [concat_str]
    rw [if_neg (by simp [h1]), if_pos h2]

/-- The row loop of concat_str pushes one slot per row: null when the row
accumulator flagged a null, the scratch buffer otherwise. -/
theorem utf8_foldl_rows (g : Nat → String × Bool) :
    ∀ (l : List Nat) (b : Utf8ChunkedBuilder),
      l.foldl (fun bld i =>
          if (g i).2 then bld.append_null else bld.append_value (g i).1) b
        = { b with builder := b.builder
            ++ l.map (fun i => if (g i).2 then none else some (g i).1) } := by
  intro l
  induction l with
  | nil => intro b; simp
  | cons x xs ih =>
    intro b
    rw [List.foldl_cons, ih]
    have hb : (if (g x).2 then b.append_null else b.append_value (g x).1)
        = { b with builder := b.builder
            ++ [if (g x).2 then none else some (g x).1] } := by
      by_cases h : (g x).2 <;>
        simp [h, Utf8ChunkedBuilder.append_null, Utf8ChunkedBuilder.append_value,
          Prim.push]
    rw [hb]
    simp [List.append_assoc]

/-- The tail of the row fold (every source after the first): the delimiter
is pushed before each source, present values are appended, nulls keep the
buffer and raise the flag. -/
theorem concatRow_tail (d : String) (i : Nat) :
    ∀ (its : List IterBroadCast) (vs : List (Option String)) (n : Nat)
      (buf : String) (flag : Bool),
      its.map (fun it => it.atNext i) = vs.map some →
      (its.enumFrom (n + 1)).foldl (concatStep d i) (buf, flag)
        = (vs.foldl (fun acc o => acc ++ d ++ o.getD "") buf,
           flag || vs.any Option.isNone) := by
  intro its
  induction its with
  | nil =>
    intro vs n buf flag hmap
    have hvs : vs = [] := by
      cases vs with
      | nil => rfl
      | cons v vs => simp at hmap
    subst hvs
    simp [List.enumFrom]
  | cons it rest ih =>
    intro vs n buf flag hmap
    cases vs with
    | nil => simp at hmap
    | cons v vs =>
      simp only [List.map_cons, List.cons.injEq] at hmap
      obtain ⟨hhead, htail⟩ := hmap
      simp only [List.enumFrom, List.foldl_cons]
      have hstep : concatStep d i (buf, flag) (n + 1, it)
          = (buf ++ d ++ v.getD "", flag || v.isNone) := by
        simp only [concatStep, hhead]
        cases v with
        | some str => simp
        | none => simp [String.append_empty]
      rw [hstep, ih vs (n + 1) _ _ htail]
      simp [List.foldl_cons, List.any_cons, Bool.or_assoc]

/-- The full row fold of concat_str: when every source yields at row i, the
scratch buffer is the joined present values (nulls contributing the empty
string) and the flag records whether any source was null. -/
theorem concatRowAcc_spec (d : String) (i : Nat)
    (its : List IterBroadCast) (vs : List (Option String))
    (hmap : its.map (fun it => it.atNext i) = vs.map some) :
    concatRowAcc d its i
      = (joinWith d (vs.map (fun o => o.getD "")), vs.any Option.isNone) := by
  cases its with
  | nil =>
    have hvs : vs = [] := by
      cases vs with
      | nil => rfl
      | cons v vs => simp at hmap
    subst hvs
    simp [concatRowAcc, joinWith]
  | cons it rest =>
    cases vs with
    | nil => simp at hmap
    | cons v vs =>
      simp only [List.map_cons, List.cons.injEq] at hmap
      obtain ⟨hhead, htail⟩ := hmap
      simp only [concatRowAcc, List.enum, List.enumFrom, List.foldl_cons]
      have hstep : concatStep d i ("", false) (0, it) = (v.getD "", v.isNone) := by
        simp only [concatStep, hhead]
        cases v with
        | some str => simp [String.empty_append]
        | none => simp
      rw [hstep, concatRow_tail d i rest vs 0 _ _ htail]
      simp [joinWith, List.any_cons, List.foldl_map]

/-- On length-checked inputs, the i-th next() of every classified source is
exactly the broadcast-aware slot of the corresponding input column. -/
theorem mkIters_atNext (ss : List (ChunkedArray String)) (i : Nat)
    (hi : i < maxLen ss)
    (hlen : ∀ c ∈ ss, c.len = 1 ∨ c.len = maxLen ss) :
    (mkIters (broadcastCols ss (maxLen ss))).map (fun it => it.atNext i)
      = (ss.map (fun c => sourceAt c i)).map some := by
  simp only [mkIters, broadcastCols, List.map_map]
  apply List.map_congr_left
  intro c hc
  simp only [Function.comp_apply]
  by_cases h1 : c.len = 1
  · by_cases hexp : 1 < maxLen ss
    · have hca : (if c.len = 1 ∧ 1 < maxLen ss
          then c.expand_at_index 0 (maxLen ss) else c)
          = c.expand_at_index 0 (maxLen ss) := if_pos ⟨h1, hexp⟩
      rw [hca]
      have hlenexp : (c.expand_at_index 0 (maxLen ss)).len = maxLen ss := by
        simp [ChunkedArray.expand_at_index, ChunkedArray.len]
      rw [if_neg (by rw [hlenexp]; omega)]
      simp [IterBroadCast.atNext, ChunkedArray.expand_at_index, sourceAt, h1,
        List.getElem?_replicate, hi]
    · have hca : (if c.len = 1 ∧ 1 < maxLen ss
          then c.expand_at_index 0 (maxLen ss) else c) = c :=
        if_neg (fun hand => hexp hand.2)
      rw [hca, if_pos h1]
      simp [IterBroadCast.atNext, sourceAt, h1]
  · have hL : c.len = maxLen ss := (hlen c hc).resolve_left h1
    have hca : (if c.len = 1 ∧ 1 < maxLen ss
        then c.expand_at_index 0 (maxLen ss) else c) = c :=
      if_neg (fun hand => h1 hand.1)
    rw [hca, if_neg h1]
    have hiL : i < c.chunks.flatten.length := by
      simp only [ChunkedArray.len] at hL
      omega
    simp only [IterBroadCast.atNext, sourceAt, if_neg h1, ChunkedArray.get]
    rw [List.getElem?_eq_getElem hiL, List.getD_eq_getElem _ _ hiL]

/-- Characterization of concat_str on valid inputs: it succeeds with a
single-chunk utf8 column named after the first input whose row i is the
rowSpec value. -/
theorem concat_str_ok (ss : List (ChunkedArray String)) (d : String)
    (hne : ss ≠ [])
    (hlen : ∀ c ∈ ss, c.len = 1 ∨ c.len = maxLen ss) :
    concat_str ss d = Except.ok
      (ChunkedArray.mk ⟨(ss.headD emptyUtf8).name, DataType.Utf8⟩
        [(List.range (maxLen ss)).map (rowSpec ss d)]) := by
  have h1 : ss.isEmpty = false := by
    cases ss with
    | nil => exact absurd rfl hne
    | cons a l => rfl
  simp only [concat_str]
  rw [if_neg (by simp [h1]), if_neg (not_not_intro hlen)]
  rw [utf8_foldl_rows
    (fun i => concatRowAcc d (mkIters (broadcastCols ss (maxLen ss))) i)]
  have hmapeq : (List.range (maxLen ss)).map (fun i =>
      if (concatRowAcc d (mkIters (broadcastCols ss (maxLen ss))) i).2 then none
      else some (concatRowAcc d (mkIters (broadcastCols ss (maxLen ss))) i).1)
      = (List.range (maxLen ss)).map (rowSpec ss d) := by
    apply List.map_congr_left
    intro i hi
    have hiL : i < maxLen ss := List.mem_range.mp hi
    rw [concatRowAcc_spec d i _ (ss.map (fun c => sourceAt c i))
      (mkIters_atNext ss i hiL hlen)]
    simp only [rowSpec]
  simp only [Utf8ChunkedBuilder.finish, Utf8ChunkedBuilder.new,
    List.nil_append]
  rw [hmapeq]

/-- Claim C8: on every valid input (each column of length 1 or of the
maximum length L), concat_str succeeds with output length L, and row i is
null exactly when some source is null at that row, otherwise the source
strings joined in input order by the delimiter, the streaming sources being
consumed one slot per row. -/
theorem C8_concat_str_rows (ss : List (ChunkedArray String)) (d : String)
    (hne : ss ≠ [])
    (hlen : ∀ c ∈ ss, c.len = 1 ∨ c.len = maxLen ss) :
    ∃ out, concat_str ss d = Except.ok out
      ∧ out.len = maxLen ss
      ∧ out.read_back = (List.range (maxLen ss)).map (rowSpec ss d) := by
  refine ⟨_, concat_str_ok ss d hne hlen, ?_, ?_⟩
  · simp [ChunkedArray.len]
  · rw [read_back_single_chunk]

/-- Witness for claim C8: one streaming column holding a null joined with a
constant column. -/
theorem C8_concat_str_rows_witness :
    ∃ out, concat_str [sStreamWit, sConstWit] "-" = Except.ok out
      ∧ out.len = maxLen [sStreamWit, sConstWit]
      ∧ out.read_back = (List.range (maxLen [sStreamWit, sConstWit])).map
          (rowSpec [sStreamWit, sConstWit] "-") :=
  C8_concat_str_rows [sStreamWit, sConstWit] "-" (by decide) (by decide)

/-- Claim C10: on every valid input, the column returned by concat_str
carries the name of the first input series. -/
theorem C10_concat_str_output_name (ss : List (ChunkedArray String))
    (d : String) (hne : ss ≠ [])
    (hlen : ∀ c ∈ ss, c.len = 1 ∨ c.len = maxLen ss) :
    ∃ out, concat_str ss d = Except.ok out
      ∧ out.name = (ss.headD emptyUtf8).name :=
  ⟨_, concat_str_ok ss d hne hlen, rfl⟩

/-- Witness for claim C10: two inputs with different names. -/
theorem C10_concat_str_output_name_witness :
    ∃ out, concat_str [sLen3, sConstWit] "_" = Except.ok out
      ∧ out.name = ([sLen3, sConstWit].headD emptyUtf8).name :=
  C10_concat_str_output_name [sLen3, sConstWit] "_" (by decide) (by decide)

/-- Witness for claim C7 at the empty input and at inputs of lengths two
and three. -/
theorem C7_concat_str_error_paths_witness :
    concat_str [] "_"
      = Except.error (PolarsError.NoData
          "expected multiple series in concat_str function")
    ∧ concat_str [sLen2, sLen3] "_"
      = Except.error (PolarsError.ValueError
          "all series in concat_str function should have equal length or unit length") :=
  C7_concat_str_error_paths "_" [sLen2, sLen3] (by decide) (by decide)

end Polars
